import Mathlib

/-!
Verification development for the Sigma SST Signal Study Tool.

The testable core of the repository consists of the free-hand Signal Painter
editor (src/Util/make_sample_signal.py and src/Util/make_sample_signal2.py;
the point/interval editing, undo/redo, CSV import and resampling logic is
identical in the two files, the second adds a background waveform) and the
signal metrics (Pearson r, RMSE, SNR) and parametric generators used by the
study modules under src/Subject.

Conventions of the shallow embedding:
* Python/numpy floats are modelled as exact rationals for the editor (all of
  its arithmetic is rational) and as real numbers for the metrics, which use
  square roots and logarithms.
* numpy arrays are modelled as lists; in-place full-slice assignment, which
  keeps the array length, is modelled by replacing the list with one of the
  same length.
* CSV fields are modelled by the outcome of float parsing: a field is
  an Option of a rational, some q when Python float() succeeds with value q
  and none when it raises ValueError.
-/

set_option maxRecDepth 8000

namespace SigmaSST

/-! ## Timeline constants (make_sample_signal.py lines 31 to 34) -/

/-- Sample rate FS = 250.0. -/
def FS : ℚ := 250

/-- Number of samples N = int(FS * DUR) = 1250. -/
def N : ℕ := 1250

/-- Fixed time grid T = np.arange(N) / FS. -/
def Tgrid : List ℚ := (List.range N).map (fun i : ℕ => (i : ℚ) / FS)

/-! ## Small numpy/Python helpers -/

/-- Scalar np.clip over the rationals. -/
def clipQ (x lo hi : ℚ) : ℚ := min (max x lo) hi

/-- Scalar np.clip over the integers. -/
def clipZ (x lo hi : ℤ) : ℤ := min (max x lo) hi

/-- Python round() on a rational: round half to even (banker's rounding). -/
def pyRound (x : ℚ) : ℤ :=
  if Int.fract x = 1/2 then (if Even ⌊x⌋ then ⌊x⌋ else ⌊x⌋ + 1) else round x

/-- numpy linspace with the default endpoint=True: num points from y0 to y1. -/
def linspace (y0 y1 : ℚ) (num : ℕ) : List ℚ :=
  (List.range num).map (fun i : ℕ => y0 + (y1 - y0) * (i : ℚ) / ((num : ℚ) - 1))

/-- numpy allclose with explicit absolute tolerance (relative tolerance keeps
its default 1e-5): all samplewise differences within atol + rtol * abs b. -/
def allcloseAtol (a b : List ℚ) (atol : ℚ) : Bool :=
  (a.zip b).all (fun p => |p.1 - p.2| ≤ atol + 1e-5 * |p.2|)

/-- numpy allclose with default tolerances (atol = 1e-8, rtol = 1e-5). -/
def allclose (a b : List ℚ) : Bool := allcloseAtol a b 1e-8

/-! ## Editor state (SignalPainter attributes of make_sample_signal2.py;
make_sample_signal.py has the same fields except bg_y) -/

structure PState where
  t : List ℚ
  y : List ℚ
  yBeforeStroke : Option (List ℚ)
  undoStack : List (List ℚ)
  redoStack : List (List ℚ)
  bgY : Option (List ℚ)
  drawing : Bool
  lastIx : Option ℕ
deriving DecidableEq

/-- Initial editor session state: t = T.copy(), y = np.zeros_like(t),
empty stacks, not drawing, no last touched index. -/
def initState : PState :=
  { t := Tgrid
    y := List.replicate N 0
    yBeforeStroke := none
    undoStack := []
    redoStack := []
    bgY := none
    drawing := false
    lastIx := none }

/-- Index computation of apply_point: x clamped to the timeline tl, then
ix = int(np.clip(int(round(x * FS)), 0, N - 1)). -/
def ixOf (tl : List ℚ) (xdata : ℚ) : ℕ :=
  (clipZ (pyRound (clipQ xdata (tl.getD 0 0) ((tl.getLast?).getD 0) * FS))
    0 ((N : ℤ) - 1)).toNat

/-- SignalPainter.apply_point (make_sample_signal.py lines 157 to 179,
make_sample_signal2.py lines 250 to 261): when interpolating and a distinct
last touched index exists, overwrite the span between the two indices with
np.linspace(y[last_ix], ydata, hi - lo + 1); otherwise assign the single
sample. Always records ix as the last touched index. -/
def applyPoint (s : PState) (xdata ydata : ℚ) (interpolate : Bool) : PState :=
  let ix := ixOf s.t xdata
  match interpolate, s.lastIx with
  | true, some l =>
    if l ≠ ix then
      let lo := min l ix
      let hi := max l ix
      let ynew :=
        if lo < hi then
          s.y.take lo ++ linspace (s.y.getD l 0) ydata (hi - lo + 1) ++ s.y.drop (hi + 1)
        else s.y
      { s with y := ynew, lastIx := some ix }
    else { s with y := s.y.set ix ydata, lastIx := some ix }
  | _, _ => { s with y := s.y.set ix ydata, lastIx := some ix }

/-- SignalPainter.on_press, accepted path (left button inside the axes):
start drawing, capture the stroke baseline, clear the redo stack and apply
the point without interpolation. -/
def onPress (s : PState) (xdata ydata : ℚ) : PState :=
  applyPoint { s with drawing := true, yBeforeStroke := some s.y, redoStack := [] }
    xdata ydata false

/-- SignalPainter.on_motion, in-axes path: while drawing, apply the point
with interpolation. -/
def onMotion (s : PState) (xdata ydata : ℚ) : PState :=
  if s.drawing then applyPoint s xdata ydata true else s

/-- SignalPainter.on_release: stop drawing, forget the last touched index and
push the baseline on the undo stack when the waveform moved by more than the
np.allclose tolerance. -/
def onRelease (s : PState) : PState :=
  if s.drawing then
    let s1 := { s with drawing := false, lastIx := none }
    match s1.yBeforeStroke with
    | some b =>
      if allclose b s1.y then { s1 with yBeforeStroke := none }
      else { s1 with undoStack := s1.undoStack ++ [b], yBeforeStroke := none }
    | none => { s1 with yBeforeStroke := none }
  else s

/-- SignalPainter.on_undo: silent no-op on an empty stack, otherwise pop the
last snapshot, save the current waveform on the redo stack and restore. -/
def onUndo (s : PState) : PState :=
  match s.undoStack.getLast? with
  | none => s
  | some prev =>
    { s with undoStack := s.undoStack.dropLast
             redoStack := s.redoStack ++ [s.y]
             y := prev }

/-- SignalPainter.on_redo, symmetric inverse of on_undo. -/
def onRedo (s : PState) : PState :=
  match s.redoStack.getLast? with
  | none => s
  | some nxt =>
    { s with redoStack := s.redoStack.dropLast
             undoStack := s.undoStack ++ [s.y]
             y := nxt }

/-- SignalPainter.push_undo: snapshot the current waveform, clear redo. -/
def pushUndo (s : PState) : PState :=
  { s with undoStack := s.undoStack ++ [s.y], redoStack := [] }

/-- SignalPainter.on_new: push undo and zero the waveform in place. -/
def onNew (s : PState) : PState :=
  let s1 := pushUndo s
  { s1 with y := s1.y.map (fun _ => 0) }

/-- Scan step of np.interp: walk the sample points, interpolating inside the
first bracketing segment; past the last point the last value is returned. -/
def npInterpGo (x : ℚ) : List (ℚ × ℚ) → ℚ → ℚ
  | [], fallback => fallback
  | (xj, fj) :: rest, _ =>
    match rest with
    | [] => fj
    | (xk, fk) :: _ =>
      if x ≤ xk then fj + (fk - fj) * (x - xj) / (xk - xj)
      else npInterpGo x rest fj

/-- numpy one-dimensional piecewise-linear interpolation np.interp(xs, xp, fp)
for increasing xp: constant extension with fp.head below xp.head and with the
last value above the last sample point. -/
def npInterp (xs xp fp : List ℚ) : List ℚ :=
  xs.map (fun x =>
    match xp.zip fp with
    | [] => 0
    | (x0, f0) :: rest => if x ≤ x0 then f0 else npInterpGo x ((x0, f0) :: rest) f0)

/-- SignalPainter.on_open after a successful load_csv: push undo, then either
resample onto the fixed grid with np.interp or copy directly when the imported
times already coincide with the timeline. -/
def onOpen (s : PState) (tIn yIn : List ℚ) : PState :=
  let s1 := pushUndo s
  if tIn.length ≠ s1.t.length ∨ ¬ allcloseAtol tIn s1.t 1e-9 then
    { s1 with y := npInterp s1.t tIn yIn }
  else
    { s1 with y := yIn }

/-- SignalPainter.on_bg_load after a successful load_csv (make_sample_signal2.py
lines 315 to 325): resample or copy into the background waveform. -/
def onBgLoad (s : PState) (tIn yIn : List ℚ) : PState :=
  let bg :=
    if tIn.length ≠ s.t.length ∨ ¬ allcloseAtol tIn s.t 1e-9 then npInterp s.t tIn yIn
    else yIn
  { s with bgY := some bg }

/-- SignalPainter.on_bg_apply (make_sample_signal2.py lines 334 to 340): with a
background loaded, push undo and overwrite the waveform with the background. -/
def onBgApply (s : PState) : PState :=
  match s.bgY with
  | none => s
  | some bg =>
    let s1 := pushUndo s
    { s1 with y := bg }

/-- Session invariant: the timeline is the fixed canonical grid and every
waveform reachable by the editor (current, stroke baseline, undo and redo
snapshots, background) has exactly N samples; the recorded last-touched index
is always a valid sample index. -/
def Inv (s : PState) : Prop :=
  s.t = Tgrid ∧ s.y.length = N ∧
  (∀ w ∈ s.undoStack, w.length = N) ∧
  (∀ w ∈ s.redoStack, w.length = N) ∧
  (∀ w, s.yBeforeStroke = some w → w.length = N) ∧
  (∀ w, s.bgY = some w → w.length = N) ∧
  (∀ l, s.lastIx = some l → l < N)

/-! ## CSV import (SignalPainter.load_csv, make_sample_signal.py lines 247 to
275 and make_sample_signal2.py lines 343 to 368).

A parsed CSV is a list of rows; each row is a list of fields, a field being
some q when Python float() succeeds on it and none otherwise. The possible
exceptions are distinguished: IndexError from header[1], ValueError from a
failed float() call on a data row, and the final ValueError("Invalid CSV
shape") raised on an empty result. -/

inductive CsvErr where
  | indexError
  | parseErr
  | shapeErr
deriving DecidableEq

/-- Helper is_float of load_csv: whether float() succeeds on the field. -/
def isFloat (f : Option ℚ) : Bool := f.isSome

/-- Data loop of load_csv: rows with fewer than 2 fields are skipped, rows
with at least 2 fields have their first two fields parsed with float(). -/
def readRows : List (List (Option ℚ)) → Except CsvErr (List ℚ × List ℚ)
  | [] => .ok ([], [])
  | row :: rest =>
    if row.length < 2 then readRows rest
    else
      match row.getD 0 none, row.getD 1 none with
      | some a, some b =>
        match readRows rest with
        | .ok (ts, ys) => .ok (a :: ts, b :: ys)
        | .error e => .error e
      | _, _ => .error .parseErr

/-- Header handling of load_csv: the first row (if any) is consumed; it is
treated as data exactly when its first two fields both parse as floats.
Accessing header[1] raises IndexError when header[0] parses but the row has
only one field. Python short-circuit evaluation means header[1] is never
touched when header[0] already fails to parse. -/
def headStep (rows : List (List (Option ℚ))) : Except CsvErr (List ℚ × List ℚ) :=
  match rows.head? with
  | none => .ok ([], [])
  | some h =>
    if h.isEmpty then .ok ([], [])
    else
      match h.getD 0 none with
      | none => .ok ([], [])
      | some a =>
        if h.length ≤ 1 then .error .indexError
        else
          match h.getD 1 none with
          | none => .ok ([], [])
          | some b => .ok ([a], [b])

/-- Tail of load_csv after the header was handled: run the data loop over the
remaining rows, then apply the final shape check of the source, which raises
ValueError("Invalid CSV shape") when the sizes disagree or nothing was parsed
(the ndim checks of the source are vacuous in this model, the lists being
one-dimensional). -/
def finishLoad (t0 y0 : List ℚ) (rest : List (List (Option ℚ))) :
    Except CsvErr (List ℚ × List ℚ) :=
  match readRows rest with
  | .error e => .error e
  | .ok (ts, ys) =>
    if (t0 ++ ts).length ≠ (y0 ++ ys).length ∨ (t0 ++ ts).length = 0 then .error .shapeErr
    else .ok (t0 ++ ts, y0 ++ ys)

/-- SignalPainter.load_csv: header step, data loop, then the shape check. -/
def loadCsv (rows : List (List (Option ℚ))) : Except CsvErr (List ℚ × List ℚ) :=
  match headStep rows with
  | .error e => .error e
  | .ok (t0, y0) => finishLoad t0 y0 rows.tail

/-- A data row load_csv accepts (at least 2 fields) but fails to parse:
float() raises on one of its first two fields. -/
def badRow (r : List (Option ℚ)) : Prop :=
  2 ≤ r.length ∧ (r.getD 0 none = none ∨ r.getD 1 none = none)

/-- The only input shape on which load_csv raises IndexError: a first row
with exactly one field that parses as a float. -/
def headerIndexError (rows : List (List (Option ℚ))) : Prop :=
  ∃ h, rows.head? = some h ∧ h.length = 1 ∧ (h.getD 0 none).isSome = true

/-- Number of data rows contributed by the first row: one exactly when its
first two fields both parse as floats. -/
def headerCount (rows : List (List (Option ℚ))) : ℕ :=
  match rows.head? with
  | none => 0
  | some h => if (h.getD 0 none).isSome ∧ (h.getD 1 none).isSome then 1 else 0

/-- Resulting data row count of a successful import: the header contribution
plus the tail rows with at least 2 fields. -/
def dataCount (rows : List (List (Option ℚ))) : ℕ :=
  headerCount rows + (rows.tail.filter (fun r => 2 ≤ r.length)).length

/-! ## Signal metrics (np.std, np.corrcoef, RMSE, SNR), over the reals.

The sources inline these: make_sample_signal2.py update_metrics_label lines
204 to 221, the linear Pearson study on_update lines 106 to 116, and the
triangle-pulse study on_update lines 197 to 201. -/

/-- numpy mean of a list of reals (0 on the empty list, via division by 0). -/
noncomputable def meanR (xs : List ℝ) : ℝ := xs.sum / xs.length

/-- Mean-centered copy of a series (x - np.mean(x)). -/
noncomputable def centeredR (xs : List ℝ) : List ℝ := xs.map (fun v => v - meanR xs)

/-- numpy population standard deviation np.std:
sqrt of the mean of the squared deviations from the mean. -/
noncomputable def stdNp (xs : List ℝ) : ℝ :=
  Real.sqrt (meanR ((centeredR xs).map (fun v => v ^ 2)))

/-- Off-diagonal entry np.corrcoef(a, b)[0, 1]: the sample normalization of
numpy cancels between numerator and denominator, leaving the ratio of the
centered dot product to the product of the centered norms. -/
noncomputable def corrcoef01 (a b : List ℝ) : ℝ :=
  (List.zipWith (fun p q => p * q) (centeredR a) (centeredR b)).sum /
    (Real.sqrt (((centeredR a).map (fun v => v ^ 2)).sum) *
      Real.sqrt (((centeredR b).map (fun v => v ^ 2)).sum))

/-- Pearson computation of the linear study on_update (lines 106 to 116):
optionally mean-center both series, then return NaN (modelled as none) when
either standard deviation is below 1e-12, else np.corrcoef[0,1]. -/
noncomputable def pearsonLinearStudy (detrend : Bool) (refS testS : List ℝ) : Option ℝ :=
  let x := if detrend then centeredR refS else refS
  let y := if detrend then centeredR testS else testS
  if stdNp x < 1e-12 ∨ stdNp y < 1e-12 then none else some (corrcoef01 x y)

/-- Pearson computation of the triangle-pulse study on_update (lines 197 to
201): NaN when either raw standard deviation is below 1e-12, else the
correlation of the mean-centered series. -/
noncomputable def pearsonTriStudy (y1 y2 : List ℝ) : Option ℝ :=
  if stdNp y1 < 1e-12 ∨ stdNp y2 < 1e-12 then none
  else some (corrcoef01 (centeredR y1) (centeredR y2))

/-- Pearson computation of update_metrics_label in make_sample_signal2.py
(lines 210 to 211): the degeneracy threshold there is 1e-15, not 1e-12. -/
noncomputable def pearsonPainter2 (y bg : List ℝ) : Option ℝ :=
  if stdNp y < 1e-15 ∨ stdNp bg < 1e-15 then none else some (corrcoef01 y bg)

/-- Root mean square sqrt(np.mean(x * x)). -/
noncomputable def rmsNp (xs : List ℝ) : ℝ := Real.sqrt (meanR (xs.map (fun v => v ^ 2)))

/-- Result of the SNR computation: the two sentinel branches or a value in
decibels. -/
inductive SnrVal where
  | posInf
  | negInf
  | val (x : ℝ)

/-- SNR branch of update_metrics_label (make_sample_signal2.py lines 214 to
217), with signal := bg and error := y - bg at the call site: the +infinity
sentinel when the error RMS is below 1e-15, the -infinity sentinel when the
signal RMS is below 1e-15, otherwise 20 * log10(rms_sig / rms_err). -/
noncomputable def snrDb (signal error : List ℝ) : SnrVal :=
  if rmsNp error < 1e-15 then .posInf
  else if rmsNp signal < 1e-15 then .negInf
  else .val (20 * Real.logb 10 (rmsNp signal / rmsNp error))

/-! ## Triangle pulse train (ECGTriPulseControlStudy._tri_pulse, the
triangle-pulse study lines 147 to 182), pointwise over one sample time. -/

/-- Pointwise value of _tri_pulse: frequency clamped to the Nyquist band,
amplitude converted from microvolt to millivolt, phase from degrees to
radians; duty and apex clipped to safe intervals; a pulse is active when the
period-normalized phase fraction is below duty, rising linearly to the
amplitude at the apex fraction of the active window and falling linearly back
to zero at its end. -/
noncomputable def triPulse (fs t freqHz ampUV phaseDeg dutyPct widthPct : ℝ) : ℝ :=
  let nyq := fs / 2
  let f := max 0 (min freqHz nyq)
  let ampMV := ampUV * 1e-3
  let phase := phaseDeg * (Real.pi / 180)
  let duty := min (max dutyPct 0.1) 99.9 / 100
  let apex := min (max widthPct 1) 99 / 100
  let frac := Int.fract (f * t + phase / (2 * Real.pi))
  if frac < duty then
    let u := frac / duty
    if u ≤ apex then (if 1e-6 < apex then ampMV * (u / apex) else 0)
    else (if 1e-6 < 1 - apex then ampMV * ((1 - u) / (1 - apex)) else 0)
  else 0

/-- Full stroke protocol: one press, a list of motion events, as driven by the
Qt event loop: the waveform seen at release time is the fold of the motions
over the pressed state. -/
def strokeFold (s : PState) (x0 v0 : ℚ) (moves : List (ℚ × ℚ)) : PState :=
  moves.foldl (fun st p => onMotion st p.1 p.2) (onPress s x0 v0)

/-! ## Helper lemmas on the editor operations -/

theorem applyPoint_t (s : PState) (x v : ℚ) (b : Bool) : (applyPoint s x v b).t = s.t := by
  unfold applyPoint
  rcases b with _ | _ <;> rcases s.lastIx with _ | l <;> simp
  split <;> rfl

theorem applyPoint_yBeforeStroke (s : PState) (x v : ℚ) (b : Bool) :
    (applyPoint s x v b).yBeforeStroke = s.yBeforeStroke := by
  unfold applyPoint
  rcases b with _ | _ <;> rcases s.lastIx with _ | l <;> simp
  split <;> rfl

theorem applyPoint_undoStack (s : PState) (x v : ℚ) (b : Bool) :
    (applyPoint s x v b).undoStack = s.undoStack := by
  unfold applyPoint
  rcases b with _ | _ <;> rcases s.lastIx with _ | l <;> simp
  split <;> rfl

theorem applyPoint_redoStack (s : PState) (x v : ℚ) (b : Bool) :
    (applyPoint s x v b).redoStack = s.redoStack := by
  unfold applyPoint
  rcases b with _ | _ <;> rcases s.lastIx with _ | l <;> simp
  split <;> rfl

theorem applyPoint_drawing (s : PState) (x v : ℚ) (b : Bool) :
    (applyPoint s x v b).drawing = s.drawing := by
  unfold applyPoint
  rcases b with _ | _ <;> rcases s.lastIx with _ | l <;> simp
  split <;> rfl

theorem applyPoint_bgY (s : PState) (x v : ℚ) (b : Bool) : (applyPoint s x v b).bgY = s.bgY := by
  unfold applyPoint
  rcases b with _ | _ <;> rcases s.lastIx with _ | l <;> simp
  split <;> rfl

theorem onMotion_yBeforeStroke (s : PState) (x v : ℚ) :
    (onMotion s x v).yBeforeStroke = s.yBeforeStroke := by
  unfold onMotion
  split
  · exact applyPoint_yBeforeStroke s x v true
  · rfl

theorem onMotion_undoStack (s : PState) (x v : ℚ) :
    (onMotion s x v).undoStack = s.undoStack := by
  unfold onMotion
  split
  · exact applyPoint_undoStack s x v true
  · rfl

theorem onMotion_redoStack (s : PState) (x v : ℚ) :
    (onMotion s x v).redoStack = s.redoStack := by
  unfold onMotion
  split
  · exact applyPoint_redoStack s x v true
  · rfl

theorem onMotion_drawing (s : PState) (x v : ℚ) : (onMotion s x v).drawing = s.drawing := by
  unfold onMotion
  split
  · exact applyPoint_drawing s x v true
  · rfl

/-- Fields of a state after folding any list of motion events: drawing,
the stroke baseline and the two stacks are untouched by motion. -/
theorem foldMotion_frame (moves : List (ℚ × ℚ)) (s : PState) :
    (moves.foldl (fun st p => onMotion st p.1 p.2) s).yBeforeStroke = s.yBeforeStroke ∧
    (moves.foldl (fun st p => onMotion st p.1 p.2) s).undoStack = s.undoStack ∧
    (moves.foldl (fun st p => onMotion st p.1 p.2) s).redoStack = s.redoStack ∧
    (moves.foldl (fun st p => onMotion st p.1 p.2) s).drawing = s.drawing := by
  induction moves generalizing s with
  | nil => exact ⟨rfl, rfl, rfl, rfl⟩
  | cons m rest ih =>
    have h := ih (onMotion s m.1 m.2)
    simp only [List.foldl_cons] at *
    exact ⟨h.1.trans (onMotion_yBeforeStroke s m.1 m.2),
      h.2.1.trans (onMotion_undoStack s m.1 m.2),
      h.2.2.1.trans (onMotion_redoStack s m.1 m.2),
      h.2.2.2.trans (onMotion_drawing s m.1 m.2)⟩

/-! ## Evaluation lemmas: the time grid, rounding and indices -/

theorem Tgrid_length : Tgrid.length = N := by
  unfold Tgrid
  rw [List.length_map, List.length_range]

theorem Tgrid_getD_zero : Tgrid.getD 0 0 = 0 := by
  unfold Tgrid
  rw [List.getD_eq_getElem?_getD, List.getElem?_map, List.getElem?_range (by norm_num [N])]
  simp

theorem Tgrid_getLastD : (Tgrid.getLast?).getD 0 = 1249 / 250 := by
  rw [List.getLast?_eq_getElem?, Tgrid_length]
  unfold Tgrid
  rw [List.getElem?_map, List.getElem?_range (by norm_num [N])]
  norm_num [N, FS]

theorem pyRound_intCast (z : ℤ) : pyRound (z : ℚ) = z := by
  unfold pyRound
  rw [Int.fract_intCast]
  norm_num

theorem ixOf_lt_N (tl : List ℚ) (x : ℚ) : ixOf tl x < N := by
  unfold ixOf clipZ
  have h1 : min (max (pyRound (clipQ x (tl.getD 0 0) ((tl.getLast?).getD 0) * FS)) 0)
      ((N : ℤ) - 1) ≤ (N : ℤ) - 1 := min_le_right _ _
  have h2 : (0 : ℕ) < N := by norm_num [N]
  omega

/-- Index of a concrete coordinate on the canonical grid: the generic clamp
and round pipeline reduced to a single integer. -/
theorem ixOf_Tgrid_eval (x : ℚ) (z : ℤ) (h0 : 0 ≤ z) (h1 : z ≤ 1249)
    (hx : clipQ x 0 (1249 / 250) * FS = (z : ℚ)) : ixOf Tgrid x = z.toNat := by
  unfold ixOf
  rw [Tgrid_getD_zero, Tgrid_getLastD, hx, pyRound_intCast]
  unfold clipZ
  have hmax : max z 0 = z := max_eq_left h0
  rw [hmax]
  have hmin : min z ((N : ℤ) - 1) = z := min_eq_left (by norm_num [N]; omega)
  rw [hmin]

theorem ixOf_one : ixOf Tgrid 1 = 250 := by
  have := ixOf_Tgrid_eval 1 250 (by norm_num) (by norm_num) (by norm_num [clipQ, FS])
  simpa using this

theorem ixOf_1004 : ixOf Tgrid 1.004 = 251 := by
  have := ixOf_Tgrid_eval 1.004 251 (by norm_num) (by norm_num) (by norm_num [clipQ, FS])
  simpa using this

theorem ixOf_zero : ixOf Tgrid 0 = 0 := by
  have := ixOf_Tgrid_eval 0 0 (by norm_num) (by norm_num) (by norm_num [clipQ, FS])
  simpa using this

/-! ## Evaluation lemmas: linspace, splicing and applyPoint -/

theorem linspace_length (y0 y1 : ℚ) (num : ℕ) : (linspace y0 y1 num).length = num := by
  unfold linspace
  rw [List.length_map, List.length_range]

theorem linspace_getD (y0 y1 : ℚ) (num i : ℕ) (h : i < num) :
    (linspace y0 y1 num).getD i 0 = y0 + (y1 - y0) * i / ((num : ℚ) - 1) := by
  unfold linspace
  rw [List.getD_eq_getElem?_getD, List.getElem?_map, List.getElem?_range h]
  rfl

/-- Single-point branch of apply_point (press, or motion without a distinct
previous index): a plain set at the clamped index. -/
theorem applyPoint_y_false (s : PState) (x v : ℚ) :
    (applyPoint s x v false).y = s.y.set (ixOf s.t x) v := by
  unfold applyPoint
  rcases s.lastIx with _ | l <;> rfl

theorem onPress_y (s : PState) (x v : ℚ) : (onPress s x v).y = s.y.set (ixOf s.t x) v := by
  unfold onPress
  rw [applyPoint_y_false]

theorem onPress_lastIx (s : PState) (x v : ℚ) : (onPress s x v).lastIx = some (ixOf s.t x) := by
  unfold onPress applyPoint
  rfl

theorem onPress_t (s : PState) (x v : ℚ) : (onPress s x v).t = s.t := by
  unfold onPress
  rw [applyPoint_t]

/-- Interval branch of apply_point: the waveform after a motion to a distinct
index. The span between the two indices becomes the linspace segment. -/
theorem applyPoint_y_interp (s : PState) (x v : ℚ) (l : ℕ)
    (hlast : s.lastIx = some l) (hne : l ≠ ixOf s.t x) :
    (applyPoint s x v true).y =
      s.y.take (min l (ixOf s.t x)) ++
        linspace (s.y.getD l 0) v (max l (ixOf s.t x) - min l (ixOf s.t x) + 1) ++
        s.y.drop (max l (ixOf s.t x) + 1) := by
  unfold applyPoint
  rw [hlast]
  simp only [hne, if_true, ne_eq, not_false_eq_true]
  have hlt : min l (ixOf s.t x) < max l (ixOf s.t x) := by
    rcases Nat.lt_or_ge l (ixOf s.t x) with h | h
    · omega
    · rcases Nat.lt_or_ge (ixOf s.t x) l with h2 | h2
      · omega
      · omega
  simp only [if_pos hlt]

theorem onMotion_y_interp (s : PState) (x v : ℚ) (l : ℕ)
    (hd : s.drawing = true) (hlast : s.lastIx = some l) (hne : l ≠ ixOf s.t x) :
    (onMotion s x v).y =
      s.y.take (min l (ixOf s.t x)) ++
        linspace (s.y.getD l 0) v (max l (ixOf s.t x) - min l (ixOf s.t x) + 1) ++
        s.y.drop (max l (ixOf s.t x) + 1) := by
  unfold onMotion
  rw [hd]
  simp only [if_true]
  exact applyPoint_y_interp s x v l hlast hne

/-- Value of any sample inside the overwritten span: the linear interpolation
that places the previous sample value at the lower end of the span and the new
pointer value at the upper end. -/
theorem spliced_getD (ys : List ℚ) (y0 v : ℚ) (lo hi k : ℕ)
    (hlo : lo ≤ k) (hk : k ≤ hi) (hhi : hi < ys.length) :
    (ys.take lo ++ linspace y0 v (hi - lo + 1) ++ ys.drop (hi + 1)).getD k 0 =
      y0 + (v - y0) * ((k : ℚ) - (lo : ℚ)) / ((hi : ℚ) - (lo : ℚ)) := by
  have hloLen : (ys.take lo).length = lo := by
    rw [List.length_take]
    omega
  have hlinLen : (linspace y0 v (hi - lo + 1)).length = hi - lo + 1 :=
    linspace_length y0 v (hi - lo + 1)
  rw [List.getD_eq_getElem?_getD, List.append_assoc, List.getElem?_append_right (by omega),
    List.getElem?_append_left (by rw [hlinLen]; omega), hloLen]
  rw [← List.getD_eq_getElem?_getD (linspace y0 v (hi - lo + 1)) (k - lo) 0]
  rw [linspace_getD y0 v (hi - lo + 1) (k - lo) (by omega)]
  have hc1 : ((k - lo : ℕ) : ℚ) = (k : ℚ) - (lo : ℚ) := by
    push_cast [Nat.cast_sub hlo]
    ring
  have hc2 : ((hi - lo + 1 : ℕ) : ℚ) - 1 = (hi : ℚ) - (lo : ℚ) := by
    have : lo ≤ hi := le_trans hlo hk
    push_cast [Nat.cast_sub this]
    ring
  rw [hc1, hc2]

theorem onPress_yBeforeStroke (s : PState) (x v : ℚ) :
    (onPress s x v).yBeforeStroke = some s.y := by
  unfold onPress
  rw [applyPoint_yBeforeStroke]

theorem onPress_drawing (s : PState) (x v : ℚ) : (onPress s x v).drawing = true := by
  unfold onPress
  rw [applyPoint_drawing]

theorem onPress_undoStack (s : PState) (x v : ℚ) : (onPress s x v).undoStack = s.undoStack := by
  unfold onPress
  rw [applyPoint_undoStack]

theorem onPress_redoStack (s : PState) (x v : ℚ) : (onPress s x v).redoStack = [] := by
  unfold onPress
  rw [applyPoint_redoStack]

theorem strokeFold_yBeforeStroke (s : PState) (x0 v0 : ℚ) (moves : List (ℚ × ℚ)) :
    (strokeFold s x0 v0 moves).yBeforeStroke = some s.y :=
  ((foldMotion_frame moves (onPress s x0 v0)).1).trans (onPress_yBeforeStroke s x0 v0)

theorem strokeFold_drawing (s : PState) (x0 v0 : ℚ) (moves : List (ℚ × ℚ)) :
    (strokeFold s x0 v0 moves).drawing = true :=
  ((foldMotion_frame moves (onPress s x0 v0)).2.2.2).trans (onPress_drawing s x0 v0)

theorem strokeFold_undoStack (s : PState) (x0 v0 : ℚ) (moves : List (ℚ × ℚ)) :
    (strokeFold s x0 v0 moves).undoStack = s.undoStack :=
  ((foldMotion_frame moves (onPress s x0 v0)).2.1).trans (onPress_undoStack s x0 v0)

/-- Releasing a stroke whose waveform moved beyond the allclose tolerance
appends the captured baseline to the undo stack. -/
theorem onRelease_of_changed (s : PState) (b : List ℚ)
    (hd : s.drawing = true) (hb : s.yBeforeStroke = some b)
    (hch : allclose b s.y = false) :
    onRelease s =
      { s with drawing := false, lastIx := none,
               undoStack := s.undoStack ++ [b], yBeforeStroke := none } := by
  unfold onRelease
  rw [hd]
  simp only [if_true, hb, hch]
  rfl

/-! ## Evaluation lemmas: allclose -/

theorem mem_zip_self (l : List ℚ) (p : ℚ × ℚ) (h : p ∈ l.zip l) : p.1 = p.2 := by
  induction l with
  | nil => cases h
  | cons a rest ih =>
    rw [List.zip_cons_cons, List.mem_cons] at h
    rcases h with h | h
    · rw [h]
    · exact ih h

/-- Reflexivity of np.allclose: a waveform is always within tolerance of
itself, the absolute tolerance being positive. -/
theorem allclose_self (l : List ℚ) : allclose l l = true := by
  unfold allclose allcloseAtol
  rw [List.all_eq_true]
  intro p hp
  rw [mem_zip_self l p hp]
  rw [decide_eq_true_iff]
  have h0 : |p.2 - p.2| = 0 := by rw [sub_self, abs_zero]
  rw [h0]
  positivity

/-- A single out-of-tolerance sample refutes np.allclose. -/
theorem allclose_eq_false_at (a b : List ℚ) (i : ℕ) (hia : i < a.length) (hib : i < b.length)
    (h : ¬ |a.getD i 0 - b.getD i 0| ≤ 1e-8 + 1e-5 * |b.getD i 0|) : allclose a b = false := by
  unfold allclose allcloseAtol
  rw [← Bool.not_eq_true, List.all_eq_true]
  intro hall
  have hz : (a.zip b)[i]? = some (a[i], b[i]) := by
    rw [List.getElem?_zip_eq_some]
    constructor <;> simp
  have hmem : (a[i], b[i]) ∈ a.zip b := List.getElem?_mem hz
  have hd := hall _ hmem
  rw [decide_eq_true_iff] at hd
  rw [List.getD_eq_getElem a 0 hia, List.getD_eq_getElem b 0 hib] at h
  exact h hd

theorem getD_replicate (n i : ℕ) (q : ℚ) (h : i < n) : (List.replicate n q).getD i 0 = q := by
  rw [List.getD_eq_getElem?_getD, List.getElem?_replicate]
  simp [h]

theorem getD_set_self (l : List ℚ) (i : ℕ) (v : ℚ) (h : i < l.length) :
    (l.set i v).getD i 0 = v := by
  rw [List.getD_eq_getElem?_getD, List.getElem?_set_self h]
  rfl

/-! ## The end-to-end stroke scenario of the specification:
press at (t = 1.0, y = 0.0), one motion to (t = 1.004, y = 1.0). -/

theorem initState_t : initState.t = Tgrid := rfl

theorem initState_y : initState.y = List.replicate N 0 := rfl

theorem scenario_s1_y :
    (onPress initState 1 0).y = (List.replicate N (0 : ℚ)).set 250 0 := by
  rw [onPress_y, initState_y, initState_t, ixOf_one]

theorem scenario_s1_length : (onPress initState 1 0).y.length = N := by
  rw [scenario_s1_y, List.length_set, List.length_replicate]

theorem scenario_s1_y250 : (onPress initState 1 0).y.getD 250 0 = 0 := by
  rw [scenario_s1_y]
  exact getD_set_self _ 250 0 (by rw [List.length_replicate]; norm_num [N])

theorem scenario_s2_eq :
    strokeFold initState 1 0 [(1.004, 1)] = onMotion (onPress initState 1 0) 1.004 1 := rfl

theorem scenario_s2_y :
    (strokeFold initState 1 0 [(1.004, 1)]).y =
      (onPress initState 1 0).y.take 250 ++
        linspace ((onPress initState 1 0).y.getD 250 0) 1 2 ++
        (onPress initState 1 0).y.drop 252 := by
  rw [scenario_s2_eq]
  have ht : (onPress initState 1 0).t = Tgrid := by
    rw [onPress_t, initState_t]
  have hlast : (onPress initState 1 0).lastIx = some 250 := by
    rw [onPress_lastIx, initState_t, ixOf_one]
  have hix : ixOf (onPress initState 1 0).t 1.004 = 251 := by
    rw [ht, ixOf_1004]
  have hne : (250 : ℕ) ≠ ixOf (onPress initState 1 0).t 1.004 := by
    rw [hix]
    norm_num
  rw [onMotion_y_interp (onPress initState 1 0) 1.004 1 250 (onPress_drawing initState 1 0)
    hlast hne, hix]
  norm_num

theorem scenario_s2_y250 : (strokeFold initState 1 0 [(1.004, 1)]).y.getD 250 0 = 0 := by
  rw [scenario_s2_y, spliced_getD _ _ _ 250 251 250 (le_refl 250) (by norm_num)
    (by rw [scenario_s1_length]; norm_num [N])]
  rw [scenario_s1_y250]
  norm_num

theorem scenario_s2_y251 : (strokeFold initState 1 0 [(1.004, 1)]).y.getD 251 0 = 1 := by
  rw [scenario_s2_y, spliced_getD _ _ _ 250 251 251 (by norm_num) (le_refl 251)
    (by rw [scenario_s1_length]; norm_num [N])]
  rw [scenario_s1_y250]
  norm_num

theorem scenario_s2_length : (strokeFold initState 1 0 [(1.004, 1)]).y.length = N := by
  rw [scenario_s2_y]
  rw [List.length_append, List.length_append, List.length_take, linspace_length,
    List.length_drop, scenario_s1_length]
  norm_num [N]

theorem scenario_not_allclose :
    allclose initState.y (strokeFold initState 1 0 [(1.004, 1)]).y = false := by
  rw [initState_y]
  apply allclose_eq_false_at _ _ 251
  · rw [List.length_replicate]
    norm_num [N]
  · rw [scenario_s2_length]
    norm_num [N]
  · rw [getD_replicate N 251 0 (by norm_num [N]), scenario_s2_y251]
    norm_num

/-- Claim C3: with a non-empty undo stack, redo after undo restores the entire
editor state (in particular the exact pre-undo waveform), and every number of
repeated undo/redo cycles is the identity as long as nothing intervenes. -/
theorem c3_redo_after_undo (s : PState) (h : s.undoStack ≠ []) :
    onRedo (onUndo s) = s ∧ ∀ n, (fun st => onRedo (onUndo st))^[n] s = s := by
  have hfix : onRedo (onUndo s) = s := by
    cases hu : s.undoStack.getLast? with
    | none => exact absurd (List.getLast?_eq_none_iff.mp hu) h
    | some prev =>
      have hdrop : s.undoStack.dropLast ++ [prev] = s.undoStack :=
        List.dropLast_append_getLast? prev (Option.mem_def.mpr hu)
      unfold onUndo
      rw [hu]
      unfold onRedo
      simp only [List.getLast?_concat, List.dropLast_concat, hdrop]
  refine ⟨hfix, fun n => Function.iterate_fixed ?_ n⟩
  exact hfix

/-- Witness for C3 at a concrete state with one undo snapshot. -/
theorem c3_redo_after_undo_witness :
    ({ initState with undoStack := [List.replicate N 1] } : PState).undoStack ≠ [] ∧
    onRedo (onUndo { initState with undoStack := [List.replicate N 1] }) =
      { initState with undoStack := [List.replicate N 1] } :=
  ⟨by simp, (c3_redo_after_undo { initState with undoStack := [List.replicate N 1] }
    (by simp)).1⟩

/-- Claim C2: a stroke (press, any motions, release) that moves the waveform
beyond the floating-point tolerance pushes the pre-stroke waveform, and undo
right after release restores exactly that pre-stroke waveform. -/
theorem c2_undo_after_stroke (s : PState) (x0 v0 : ℚ) (moves : List (ℚ × ℚ))
    (hch : allclose s.y (strokeFold s x0 v0 moves).y = false) :
    (onUndo (onRelease (strokeFold s x0 v0 moves))).y = s.y := by
  set s2 := strokeFold s x0 v0 moves with hs2
  have hrel := onRelease_of_changed s2 s.y (strokeFold_drawing s x0 v0 moves)
    (strokeFold_yBeforeStroke s x0 v0 moves) hch
  rw [hrel]
  unfold onUndo
  simp only [List.getLast?_concat]

/-- Witness for C2: the end-to-end stroke of the specification changes the
waveform beyond tolerance, and undo after release restores the zero waveform. -/
theorem c2_undo_after_stroke_witness :
    allclose initState.y (strokeFold initState 1 0 [(1.004, 1)]).y = false ∧
    (onUndo (onRelease (strokeFold initState 1 0 [(1.004, 1)]))).y = initState.y :=
  ⟨scenario_not_allclose,
    c2_undo_after_stroke initState 1 0 [(1.004, 1)] scenario_not_allclose⟩

/-! ## The mirrored (leftward) stroke: press at (t = 1.004, y = 0.0), one
motion to (t = 1.0, y = 1.0). The code fills the span with
np.linspace(y[last_ix], ydata, ...) writing low index to high index, so the
new pointer value lands at the HIGHER index, which for a leftward drag is the
last-touched index rather than the current one. -/

theorem scenarioL_s1_y :
    (onPress initState 1.004 0).y = (List.replicate N (0 : ℚ)).set 251 0 := by
  rw [onPress_y, initState_y, initState_t, ixOf_1004]

theorem scenarioL_s1_length : (onPress initState 1.004 0).y.length = N := by
  rw [scenarioL_s1_y, List.length_set, List.length_replicate]

theorem scenarioL_s1_y251 : (onPress initState 1.004 0).y.getD 251 0 = 0 := by
  rw [scenarioL_s1_y]
  exact getD_set_self _ 251 0 (by rw [List.length_replicate]; norm_num [N])

theorem scenarioL_s2_y :
    (strokeFold initState 1.004 0 [(1, 1)]).y =
      (onPress initState 1.004 0).y.take 250 ++
        linspace ((onPress initState 1.004 0).y.getD 251 0) 1 2 ++
        (onPress initState 1.004 0).y.drop 252 := by
  show (onMotion (onPress initState 1.004 0) 1 1).y = _
  have ht : (onPress initState 1.004 0).t = Tgrid := by
    rw [onPress_t, initState_t]
  have hlast : (onPress initState 1.004 0).lastIx = some 251 := by
    rw [onPress_lastIx, initState_t, ixOf_1004]
  have hix : ixOf (onPress initState 1.004 0).t 1 = 250 := by
    rw [ht, ixOf_one]
  have hne : (251 : ℕ) ≠ ixOf (onPress initState 1.004 0).t 1 := by
    rw [hix]
    norm_num
  rw [onMotion_y_interp (onPress initState 1.004 0) 1 1 251
    (onPress_drawing initState 1.004 0) hlast hne, hix]
  norm_num

theorem scenarioL_s2_y250 : (strokeFold initState 1.004 0 [(1, 1)]).y.getD 250 0 = 0 := by
  rw [scenarioL_s2_y, spliced_getD _ _ _ 250 251 250 (le_refl 250) (by norm_num)
    (by rw [scenarioL_s1_length]; norm_num [N])]
  rw [scenarioL_s1_y251]
  norm_num

theorem scenarioL_s2_y251 : (strokeFold initState 1.004 0 [(1, 1)]).y.getD 251 0 = 1 := by
  rw [scenarioL_s2_y, spliced_getD _ _ _ 250 251 251 (by norm_num) (le_refl 251)
    (by rw [scenarioL_s1_length]; norm_num [N])]
  rw [scenarioL_s1_y251]
  norm_num

/-- Counterexample to C1 as stated: begin a stroke at (t = 1.004, y = 0.0),
so the last touched index is 251, and continue it at (t = 1.0, y = 1.0), so
the clamped target index is 250. Per the claim the new pointer value 1.0 is
placed at the current index 250 and the previous sample value 0.0 at the
last-touched index 251. The code instead leaves sample 250 at 0.0 and puts
1.0 at sample 251. -/
theorem c1_counterexample :
    (strokeFold initState 1.004 0 [(1, 1)]).y.getD 250 0 = 0 ∧
    (strokeFold initState 1.004 0 [(1, 1)]).y.getD 251 0 = 1 ∧
    ¬ ((strokeFold initState 1.004 0 [(1, 1)]).y.getD 250 0 = 1 ∧
       (strokeFold initState 1.004 0 [(1, 1)]).y.getD 251 0 = 0) := by
  refine ⟨scenarioL_s2_y250, scenarioL_s2_y251, fun h => ?_⟩
  rw [scenarioL_s2_y250] at h
  norm_num at h

/-- Claim C1 (amended): a continue_stroke step to a distinct clamped index
overwrites the closed span between the last-touched index and the current one
with the linear interpolation that places the previous sample value at the
LOWER of the two indices and the new pointer value at the HIGHER one. This
matches the claimed orientation (previous value at the last index, new value
at the current index) exactly when the drag moves rightwards; for a leftward
drag the orientation is reversed. The end-to-end scenario of the claim is a
rightward drag and holds as stated: sample 250 becomes 0.0, sample 251
becomes 1.0. -/
theorem c1_continue_stroke_span (s : PState) (x v : ℚ) (l k : ℕ)
    (hd : s.drawing = true) (hlast : s.lastIx = some l) (hlN : l < s.y.length)
    (hixN : ixOf s.t x < s.y.length) (hne : l ≠ ixOf s.t x)
    (hk1 : min l (ixOf s.t x) ≤ k) (hk2 : k ≤ max l (ixOf s.t x)) :
    ((onMotion s x v).y.getD k 0 =
      s.y.getD l 0 + (v - s.y.getD l 0) * ((k : ℚ) - (min l (ixOf s.t x) : ℕ)) /
        ((max l (ixOf s.t x) : ℕ) - (min l (ixOf s.t x) : ℕ))) ∧
    (strokeFold initState 1 0 [(1.004, 1)]).y.getD 250 0 = 0 ∧
    (strokeFold initState 1 0 [(1.004, 1)]).y.getD 251 0 = 1 := by
  refine ⟨?_, scenario_s2_y250, scenario_s2_y251⟩
  rw [onMotion_y_interp s x v l hd hlast hne]
  exact spliced_getD s.y (s.y.getD l 0) v (min l (ixOf s.t x)) (max l (ixOf s.t x)) k
    hk1 hk2 (max_lt hlN hixN)

/-- Witness for the amended C1 at the leftward scenario: the span formula
evaluated at k = 250 for the stroke with last index 251 and current index 250
gives the previous sample value 0. -/
theorem c1_continue_stroke_span_witness :
    (onMotion (onPress initState 1.004 0) 1 1).y.getD 250 0 =
      (onPress initState 1.004 0).y.getD 251 0 +
        (1 - (onPress initState 1.004 0).y.getD 251 0) *
          ((250 : ℚ) - ((min 251 (ixOf (onPress initState 1.004 0).t 1) : ℕ) : ℚ)) /
          (((max 251 (ixOf (onPress initState 1.004 0).t 1) : ℕ) : ℚ) -
            ((min 251 (ixOf (onPress initState 1.004 0).t 1) : ℕ) : ℚ)) := by
  have ht : (onPress initState 1.004 0).t = Tgrid := by
    rw [onPress_t, initState_t]
  have hix : ixOf (onPress initState 1.004 0).t 1 = 250 := by
    rw [ht, ixOf_one]
  exact (c1_continue_stroke_span (onPress initState 1.004 0) 1 1 251 250
    (onPress_drawing initState 1.004 0)
    (by rw [onPress_lastIx, initState_t, ixOf_1004])
    (by rw [scenarioL_s1_length]; norm_num [N])
    (by rw [hix, scenarioL_s1_length]; norm_num [N])
    (by rw [hix]; norm_num)
    (by rw [hix]; norm_num) (by rw [hix]; norm_num)).1

/-- Releasing a stroke whose waveform stayed within the allclose tolerance
of the baseline pushes nothing. -/
theorem onRelease_of_unchanged (s : PState) (b : List ℚ)
    (hd : s.drawing = true) (hb : s.yBeforeStroke = some b)
    (hch : allclose b s.y = true) :
    onRelease s = { s with drawing := false, lastIx := none, yBeforeStroke := none } := by
  unfold onRelease
  rw [hd]
  simp only [if_true, hb, hch]

/-- Claim C10: a mouse press always clears the redo stack, even when the
ensuing stroke leaves the waveform unchanged; in that unchanged case the
release pushes nothing, so the click empties the redo history while leaving
the undo stack and the waveform exactly as they were. -/
theorem c10_press_clears_redo (s : PState) (x v : ℚ) :
    (onPress s x v).redoStack = [] ∧
    ((onPress s x v).y = s.y →
      (onRelease (onPress s x v)).undoStack = s.undoStack ∧
      (onRelease (onPress s x v)).y = s.y ∧
      (onRelease (onPress s x v)).redoStack = []) := by
  refine ⟨onPress_redoStack s x v, fun hy => ?_⟩
  have hch : allclose s.y (onPress s x v).y = true := by
    rw [hy]
    exact allclose_self s.y
  have hrel := onRelease_of_unchanged (onPress s x v) s.y (onPress_drawing s x v)
    (onPress_yBeforeStroke s x v) hch
  rw [hrel]
  exact ⟨onPress_undoStack s x v, hy, onPress_redoStack s x v⟩

theorem set_replicate_self (n i : ℕ) (q : ℚ) :
    (List.replicate n q).set i q = List.replicate n q := by
  induction n generalizing i with
  | zero => rfl
  | succ m ih =>
    cases i with
    | zero => rw [List.replicate_succ, List.set_cons_zero]
    | succ j =>
      rw [List.replicate_succ, List.set_cons_succ, ih j]

/-- Witness for C10: a click at the origin of an all-zero session rewrites
sample 0 with its current value, changing nothing. -/
theorem c10_press_clears_redo_witness :
    (onPress initState 0 0).y = initState.y ∧
    (onRelease (onPress initState 0 0)).undoStack = initState.undoStack ∧
    (onRelease (onPress initState 0 0)).y = initState.y ∧
    (onRelease (onPress initState 0 0)).redoStack = [] := by
  have hy : (onPress initState 0 0).y = initState.y := by
    rw [onPress_y, initState_y, initState_t, ixOf_zero, set_replicate_self]
  exact ⟨hy, (c10_press_clears_redo initState 0 0).2 hy⟩

/-! ## Invariant preservation (claim C9) -/

theorem applyPoint_lastIx (s : PState) (x v : ℚ) (b : Bool) :
    (applyPoint s x v b).lastIx = some (ixOf s.t x) := by
  unfold applyPoint
  rcases b with _ | _ <;> rcases s.lastIx with _ | l <;> simp
  split <;> rfl

theorem applyPoint_y_length (s : PState) (x v : ℚ) (b : Bool)
    (hy : s.y.length = N) (hl : ∀ l, s.lastIx = some l → l < N) :
    (applyPoint s x v b).y.length = N := by
  have hix : ixOf s.t x < N := ixOf_lt_N s.t x
  unfold applyPoint
  rcases b with _ | _ <;> rcases hli : s.lastIx with _ | l <;>
    simp only [List.length_set, hy]
  have hlN : l < N := hl l hli
  split
  · split
    · rw [List.length_append, List.length_append, List.length_take, linspace_length,
        List.length_drop, hy]
      omega
    · exact hy
  · rw [List.length_set, hy]

theorem inv_applyPoint (s : PState) (x v : ℚ) (b : Bool) (hs : Inv s) :
    Inv (applyPoint s x v b) := by
  obtain ⟨ht, hy, hu, hr, hb, hbg, hl⟩ := hs
  refine ⟨(applyPoint_t s x v b).trans ht, applyPoint_y_length s x v b hy hl, ?_, ?_, ?_, ?_, ?_⟩
  · rw [applyPoint_undoStack]
    exact hu
  · rw [applyPoint_redoStack]
    exact hr
  · rw [applyPoint_yBeforeStroke]
    exact hb
  · rw [applyPoint_bgY]
    exact hbg
  · rw [applyPoint_lastIx]
    intro l hsome
    cases hsome
    exact ixOf_lt_N s.t x

theorem inv_onPress (s : PState) (x v : ℚ) (hs : Inv s) : Inv (onPress s x v) := by
  obtain ⟨ht, hy, hu, hr, hb, hbg, hl⟩ := hs
  unfold onPress
  apply inv_applyPoint
  refine ⟨ht, hy, hu, ?_, ?_, hbg, hl⟩
  · intro w hw
    cases hw
  · intro w hw
    cases hw
    exact hy

theorem inv_onMotion (s : PState) (x v : ℚ) (hs : Inv s) : Inv (onMotion s x v) := by
  unfold onMotion
  split
  · exact inv_applyPoint s x v true hs
  · exact hs

theorem onRelease_not_drawing (s : PState) (hd : s.drawing = false) : onRelease s = s := by
  unfold onRelease
  rw [hd]
  simp

theorem onRelease_of_none (s : PState) (hd : s.drawing = true)
    (hb : s.yBeforeStroke = none) :
    onRelease s = { s with drawing := false, lastIx := none, yBeforeStroke := none } := by
  unfold onRelease
  rw [hd]
  simp only [if_true, hb]

theorem inv_onRelease (s : PState) (hs : Inv s) : Inv (onRelease s) := by
  obtain ⟨ht, hy, hu, hr, hb, hbg, hl⟩ := hs
  cases hd : s.drawing with
  | false =>
    rw [onRelease_not_drawing s hd]
    exact ⟨ht, hy, hu, hr, hb, hbg, hl⟩
  | true =>
    cases hyb : s.yBeforeStroke with
    | none =>
      rw [onRelease_of_none s hd hyb]
      exact ⟨ht, hy, hu, hr, fun w hw => Option.noConfusion hw, hbg,
        fun l hli => Option.noConfusion hli⟩
    | some b =>
      cases hch : allclose b s.y with
      | true =>
        rw [onRelease_of_unchanged s b hd hyb hch]
        exact ⟨ht, hy, hu, hr, fun w hw => Option.noConfusion hw, hbg,
          fun l hli => Option.noConfusion hli⟩
      | false =>
        rw [onRelease_of_changed s b hd hyb hch]
        refine ⟨ht, hy, ?_, hr, fun w hw => Option.noConfusion hw, hbg,
          fun l hli => Option.noConfusion hli⟩
        intro w2 hw2
        rcases List.mem_append.mp hw2 with h | h
        · exact hu w2 h
        · rw [List.mem_singleton.mp h]
          exact hb b hyb

theorem inv_pushUndo (s : PState) (hs : Inv s) : Inv (pushUndo s) := by
  obtain ⟨ht, hy, hu, hr, hb, hbg, hl⟩ := hs
  refine ⟨ht, hy, ?_, ?_, hb, hbg, hl⟩
  · intro w hw
    rcases List.mem_append.mp hw with h | h
    · exact hu w h
    · rw [List.mem_singleton.mp h]
      exact hy
  · intro w hw
    simp only [pushUndo] at hw
    cases hw

theorem inv_onNew (s : PState) (hs : Inv s) : Inv (onNew s) := by
  have h1 := inv_pushUndo s hs
  obtain ⟨ht, hy, hu, hr, hb, hbg, hl⟩ := h1
  refine ⟨ht, ?_, hu, hr, hb, hbg, hl⟩
  show ((pushUndo s).y.map (fun _ => (0 : ℚ))).length = N
  rw [List.length_map]
  exact hy

theorem npInterp_length (xs xp fp : List ℚ) : (npInterp xs xp fp).length = xs.length := by
  unfold npInterp
  rw [List.length_map]

theorem inv_onOpen (s : PState) (tIn yIn : List ℚ) (hio : tIn.length = yIn.length)
    (hs : Inv s) : Inv (onOpen s tIn yIn) := by
  have h1 := inv_pushUndo s hs
  obtain ⟨ht, hy, hu, hr, hb, hbg, hl⟩ := h1
  simp only [onOpen]
  split
  · exact ⟨ht, by rw [npInterp_length, ht, Tgrid_length], hu, hr, hb, hbg, hl⟩
  · rename_i hcond
    push_neg at hcond
    refine ⟨ht, ?_, hu, hr, hb, hbg, hl⟩
    rw [← hio, hcond.1, ht, Tgrid_length]

theorem inv_onUndo (s : PState) (hs : Inv s) : Inv (onUndo s) := by
  obtain ⟨ht, hy, hu, hr, hb, hbg, hl⟩ := hs
  unfold onUndo
  cases hlast : s.undoStack.getLast? with
  | none => exact ⟨ht, hy, hu, hr, hb, hbg, hl⟩
  | some prev =>
    refine ⟨ht, hu prev (List.mem_of_mem_getLast? hlast), ?_, ?_, hb, hbg, hl⟩
    · intro w hw
      exact hu w (List.mem_of_mem_dropLast hw)
    · intro w hw
      rcases List.mem_append.mp hw with h | h
      · exact hr w h
      · rw [List.mem_singleton.mp h]
        exact hy

theorem inv_onRedo (s : PState) (hs : Inv s) : Inv (onRedo s) := by
  obtain ⟨ht, hy, hu, hr, hb, hbg, hl⟩ := hs
  unfold onRedo
  cases hlast : s.redoStack.getLast? with
  | none => exact ⟨ht, hy, hu, hr, hb, hbg, hl⟩
  | some nxt =>
    refine ⟨ht, hr nxt (List.mem_of_mem_getLast? hlast), ?_, ?_, hb, hbg, hl⟩
    · intro w hw
      rcases List.mem_append.mp hw with h | h
      · exact hu w h
      · rw [List.mem_singleton.mp h]
        exact hy
    · intro w hw
      exact hr w (List.mem_of_mem_dropLast hw)

theorem inv_onBgLoad (s : PState) (tIn yIn : List ℚ) (hio : tIn.length = yIn.length)
    (hs : Inv s) : Inv (onBgLoad s tIn yIn) := by
  obtain ⟨ht, hy, hu, hr, hb, hbg, hl⟩ := hs
  unfold onBgLoad
  refine ⟨ht, hy, hu, hr, hb, ?_, hl⟩
  intro w hw
  cases hw
  split
  · rw [npInterp_length, ht, Tgrid_length]
  · rename_i hcond
    push_neg at hcond
    rw [← hio, hcond.1, ht, Tgrid_length]

theorem inv_onBgApply (s : PState) (hs : Inv s) : Inv (onBgApply s) := by
  obtain ⟨ht, hy, hu, hr, hb, hbg, hl⟩ := hs
  unfold onBgApply
  cases hbgv : s.bgY with
  | none => exact ⟨ht, hy, hu, hr, hb, hbg, hl⟩
  | some bg =>
    have h1 := inv_pushUndo s ⟨ht, hy, hu, hr, hb, hbg, hl⟩
    obtain ⟨ht1, hy1, hu1, hr1, hb1, hbg1, hl1⟩ := h1
    exact ⟨ht1, hbg bg hbgv, hu1, hr1, hb1, hbg1, hl1⟩

/-- Claim C9: every editor operation (point and interval edits during a
stroke, press, motion, release, new, open with resampling, undo, redo,
background load and apply-background) preserves the invariant that the
waveform has exactly N = 1250 samples and the timeline stays the fixed grid
t[i] = i / 250; no operation resizes y or modifies t. -/
theorem c9_operations_preserve_invariant (s : PState) (x v : ℚ) (b : Bool)
    (tIn yIn : List ℚ) (hio : tIn.length = yIn.length) (hs : Inv s) :
    Inv (applyPoint s x v b) ∧ Inv (onPress s x v) ∧ Inv (onMotion s x v) ∧
    Inv (onRelease s) ∧ Inv (onNew s) ∧ Inv (onOpen s tIn yIn) ∧ Inv (onUndo s) ∧
    Inv (onRedo s) ∧ Inv (onBgLoad s tIn yIn) ∧ Inv (onBgApply s) :=
  ⟨inv_applyPoint s x v b hs, inv_onPress s x v hs, inv_onMotion s x v hs,
    inv_onRelease s hs, inv_onNew s hs, inv_onOpen s tIn yIn hio hs,
    inv_onUndo s hs, inv_onRedo s hs, inv_onBgLoad s tIn yIn hio hs,
    inv_onBgApply s hs⟩

theorem inv_initState : Inv initState := by
  refine ⟨rfl, by rw [initState_y, List.length_replicate], ?_, ?_, ?_, ?_, ?_⟩
  · intro w hw
    cases hw
  · intro w hw
    cases hw
  · intro w hw
    cases hw
  · intro w hw
    cases hw
  · intro l hl
    cases hl

/-- Witness for C9 at the initial session state. -/
theorem c9_operations_preserve_invariant_witness :
    Inv initState ∧
    (Inv (applyPoint initState 0 0 true) ∧ Inv (onPress initState 0 0) ∧
      Inv (onMotion initState 0 0) ∧ Inv (onRelease initState) ∧
      Inv (onNew initState) ∧ Inv (onOpen initState [] []) ∧
      Inv (onUndo initState) ∧ Inv (onRedo initState) ∧
      Inv (onBgLoad initState [] []) ∧ Inv (onBgApply initState)) :=
  ⟨inv_initState,
    c9_operations_preserve_invariant initState 0 0 true [] [] rfl inv_initState⟩

/-! ## CSV import characterization (claim C5) -/

theorem readRows_error_parseErr (rs : List (List (Option ℚ))) :
    ∀ e : CsvErr, readRows rs = .error e → e = .parseErr := by
  induction rs with
  | nil =>
    intro e h
    exact Except.noConfusion h
  | cons row rest ih =>
    intro e h
    unfold readRows at h
    split at h
    · exact ih e h
    · split at h
      · split at h
        · exact Except.noConfusion h
        · rename_i e2 heq
          rw [ih e2 heq] at h
          exact (Except.error.inj h).symm
      · exact (Except.error.inj h).symm

theorem readRows_of_bad (rs : List (List (Option ℚ))) (hbad : ∃ r ∈ rs, badRow r) :
    readRows rs = .error .parseErr := by
  induction rs with
  | nil =>
    obtain ⟨r, hr, _⟩ := hbad
    cases hr
  | cons row rest ih =>
    obtain ⟨r, hr, hb⟩ := hbad
    unfold readRows
    rcases List.mem_cons.mp hr with heq | hmem
    · subst heq
      rw [if_neg (by have := hb.1; omega)]
      rcases hb.2 with h0 | h1
      · rw [h0]
      · by_cases h0x : r.getD 0 none = none
        · rw [h0x]
        · obtain ⟨a, ha⟩ := Option.ne_none_iff_exists'.mp h0x
          rw [ha, h1]
    · by_cases hlen : row.length < 2
      · rw [if_pos hlen]
        exact ih ⟨r, hmem, hb⟩
      · rw [if_neg hlen]
        have hrest := ih ⟨r, hmem, hb⟩
        rcases hx : row.getD 0 none with _ | a
        · rfl
        · rcases hy : row.getD 1 none with _ | b
          · rfl
          · rw [hrest]

theorem readRows_of_good (rs : List (List (Option ℚ))) (hgood : ∀ r ∈ rs, ¬ badRow r) :
    ∃ ts ys, readRows rs = .ok (ts, ys) ∧
      ts.length = (rs.filter (fun r => 2 ≤ r.length)).length ∧ ts.length = ys.length := by
  induction rs with
  | nil => exact ⟨[], [], rfl, rfl, rfl⟩
  | cons row rest ih =>
    obtain ⟨ts, ys, hok, hlen, heq⟩ := ih (fun r hr => hgood r (List.mem_cons_of_mem row hr))
    by_cases hlen2 : row.length < 2
    · refine ⟨ts, ys, ?_, ?_, heq⟩
      · unfold readRows
        rw [if_pos hlen2]
        exact hok
      · rw [hlen, List.filter_cons, if_neg (by simp; omega)]
    · have hnb := hgood row (List.mem_cons_self row rest)
      unfold badRow at hnb
      push_neg at hnb
      have h2 : 2 ≤ row.length := by omega
      obtain ⟨h0, h1⟩ := hnb h2
      obtain ⟨a, ha⟩ := Option.ne_none_iff_exists'.mp h0
      obtain ⟨b, hbb⟩ := Option.ne_none_iff_exists'.mp h1
      refine ⟨a :: ts, b :: ys, ?_, ?_, by simp [heq]⟩
      · unfold readRows
        rw [if_neg hlen2, ha, hbb, hok]
      · rw [List.filter_cons, if_pos (by simp; omega)]
        simp [hlen]

theorem headStep_cons_reduce (hd : List (Option ℚ)) (rest : List (List (Option ℚ))) :
    headStep (hd :: rest) =
      (if hd.isEmpty = true then .ok ([], [])
       else
         match hd.getD 0 none with
         | none => .ok ([], [])
         | some a =>
           if hd.length ≤ 1 then .error .indexError
           else
             match hd.getD 1 none with
             | none => .ok ([], [])
             | some b => .ok ([a], [b])) := rfl

/-- Exhaustive description of the header step: it raises IndexError exactly
on a single-field numeric first row, and otherwise contributes headerCount
data rows. -/
theorem headStep_spec (rows : List (List (Option ℚ))) :
    (headStep rows = .error .indexError ∧ headerIndexError rows) ∨
    (∃ t0 y0 : List ℚ, headStep rows = .ok (t0, y0) ∧ t0.length = headerCount rows ∧
      t0.length = y0.length ∧ ¬ headerIndexError rows) := by
  cases rows with
  | nil =>
    right
    refine ⟨[], [], rfl, rfl, rfl, ?_⟩
    rintro ⟨h, hh, _, _⟩
    exact Option.noConfusion hh
  | cons hd rest =>
    have hcount : headerCount (hd :: rest) =
        if (hd.getD 0 none).isSome = true ∧ (hd.getD 1 none).isSome = true then 1 else 0 := rfl
    by_cases he : hd.isEmpty = true
    · right
      have h0 : hd.getD 0 none = none := by
        rw [List.isEmpty_iff.mp he]
        rfl
      refine ⟨[], [], ?_, ?_, rfl, ?_⟩
      · rw [headStep_cons_reduce, if_pos he]
      · rw [hcount, if_neg (by rw [h0]; simp)]
        rfl
      · rintro ⟨h, hh, hlen, hs⟩
        rw [List.head?_cons] at hh
        cases hh
        rw [List.isEmpty_iff.mp he] at hlen
        exact absurd hlen (by norm_num)
    · rcases h0 : hd.getD 0 none with _ | a
      · right
        refine ⟨[], [], ?_, ?_, rfl, ?_⟩
        · rw [headStep_cons_reduce, if_neg he]
          simp only [h0]
        · rw [hcount, if_neg (by rw [h0]; simp)]
          rfl
        · rintro ⟨h, hh, hlen, hs⟩
          rw [List.head?_cons] at hh
          cases hh
          rw [h0] at hs
          simp at hs
      · by_cases hl : hd.length ≤ 1
        · left
          have hne : hd ≠ [] := by
            intro hcon
            rw [hcon] at h0
            exact Option.noConfusion h0
          have hlen1 : hd.length = 1 := by
            have := List.length_pos.mpr hne
            omega
          refine ⟨?_, hd, List.head?_cons, hlen1, by rw [h0]; rfl⟩
          rw [headStep_cons_reduce, if_neg he]
          simp only [h0]
          rw [if_pos hl]
        · rcases h1 : hd.getD 1 none with _ | b
          · right
            refine ⟨[], [], ?_, ?_, rfl, ?_⟩
            · rw [headStep_cons_reduce, if_neg he]
              simp only [h0]
              rw [if_neg hl]
              simp only [h1]
            · rw [hcount, if_neg (by rw [h1]; simp)]
              rfl
            · rintro ⟨h, hh, hlen, hs⟩
              rw [List.head?_cons] at hh
              cases hh
              omega
          · right
            refine ⟨[a], [b], ?_, ?_, rfl, ?_⟩
            · rw [headStep_cons_reduce, if_neg he]
              simp only [h0]
              rw [if_neg hl]
              simp only [h1]
            · rw [hcount, if_pos (by rw [h0, h1]; exact ⟨rfl, rfl⟩)]
              rfl
            · rintro ⟨h, hh, hlen, hs⟩
              rw [List.head?_cons] at hh
              cases hh
              omega

theorem headStep_ok_count (rows : List (List (Option ℚ))) (t0 y0 : List ℚ)
    (h : headStep rows = .ok (t0, y0)) :
    t0.length = headerCount rows ∧ t0.length = y0.length := by
  rcases headStep_spec rows with ⟨herr, _⟩ | ⟨t0', y0', hok, hc, hl, _⟩
  · rw [herr] at h
    exact Except.noConfusion h
  · rw [hok] at h
    obtain ⟨h1, h2⟩ := Prod.mk.inj (Except.ok.inj h)
    rw [← h1, ← h2]
    exact ⟨hc, hl⟩

theorem headStep_error_iff (rows : List (List (Option ℚ))) (e : CsvErr) :
    headStep rows = .error e ↔ (e = .indexError ∧ headerIndexError rows) := by
  rcases headStep_spec rows with ⟨herr, hidx⟩ | ⟨t0, y0, hok, _, _, hnidx⟩
  · rw [herr]
    constructor
    · intro h
      exact ⟨(Except.error.inj h).symm, hidx⟩
    · rintro ⟨rfl, _⟩
      rfl
  · rw [hok]
    constructor
    · intro h
      exact Except.noConfusion h
    · rintro ⟨rfl, hidx⟩
      exact absurd hidx hnidx

theorem loadCsv_eq_of_headStep_error (rows : List (List (Option ℚ))) (e : CsvErr)
    (hh : headStep rows = .error e) : loadCsv rows = .error e := by
  unfold loadCsv
  rw [hh]

theorem loadCsv_eq_of_headStep_ok (rows : List (List (Option ℚ))) (t0 y0 : List ℚ)
    (hh : headStep rows = .ok (t0, y0)) : loadCsv rows = finishLoad t0 y0 rows.tail := by
  unfold loadCsv
  rw [hh]

theorem finishLoad_of_readRows_error (t0 y0 : List ℚ) (rest : List (List (Option ℚ)))
    (e : CsvErr) (h : readRows rest = .error e) : finishLoad t0 y0 rest = .error e := by
  unfold finishLoad
  rw [h]

theorem finishLoad_of_readRows_ok (t0 y0 : List ℚ) (rest : List (List (Option ℚ)))
    (ts ys : List ℚ) (h : readRows rest = .ok (ts, ys)) :
    finishLoad t0 y0 rest =
      if (t0 ++ ts).length ≠ (y0 ++ ys).length ∨ (t0 ++ ts).length = 0 then .error .shapeErr
      else .ok (t0 ++ ts, y0 ++ ys) := by
  unfold finishLoad
  rw [h]

theorem loadCsv_indexError_iff (rows : List (List (Option ℚ))) :
    loadCsv rows = .error .indexError ↔ headerIndexError rows := by
  rcases headStep_spec rows with ⟨herr, hidx⟩ | ⟨t0, y0, hok, _, _, hnidx⟩
  · rw [loadCsv_eq_of_headStep_error rows _ herr]
    constructor
    · intro _
      exact hidx
    · intro _
      rfl
  · rw [loadCsv_eq_of_headStep_ok rows t0 y0 hok]
    constructor
    · intro h
      cases hrr : readRows rows.tail with
      | error e2 =>
        rw [finishLoad_of_readRows_error _ _ _ _ hrr,
          readRows_error_parseErr _ e2 hrr] at h
        exact absurd (Except.error.inj h) (fun hcon => CsvErr.noConfusion hcon)
      | ok p =>
        rcases p with ⟨ts, ys⟩
        rw [finishLoad_of_readRows_ok _ _ _ _ _ hrr] at h
        split at h
        · exact absurd (Except.error.inj h) (fun hcon => CsvErr.noConfusion hcon)
        · exact Except.noConfusion h
    · intro hidx
      exact absurd hidx hnidx

theorem loadCsv_formatError_iff (rows : List (List (Option ℚ)))
    (hnoidx : ¬ headerIndexError rows) :
    (loadCsv rows = .error .parseErr ∨ loadCsv rows = .error .shapeErr) ↔
    ((∃ r ∈ rows.tail, badRow r) ∨ dataCount rows = 0) := by
  rcases headStep_spec rows with ⟨_, hidx⟩ | ⟨t0, y0, hok, hcount, hlen0, _⟩
  · exact absurd hidx hnoidx
  · rw [loadCsv_eq_of_headStep_ok rows t0 y0 hok]
    by_cases hbad : ∃ r ∈ rows.tail, badRow r
    · rw [finishLoad_of_readRows_error _ _ _ _ (readRows_of_bad _ hbad)]
      constructor
      · intro _
        exact Or.inl hbad
      · intro _
        exact Or.inl rfl
    · push_neg at hbad
      obtain ⟨ts, ys, hok2, hts, heq⟩ := readRows_of_good rows.tail hbad
      rw [finishLoad_of_readRows_ok _ _ _ _ _ hok2]
      have hlen : (t0 ++ ts).length = (y0 ++ ys).length := by
        rw [List.length_append, List.length_append, ← hlen0, ← heq]
      have hdc : dataCount rows = (t0 ++ ts).length := by
        unfold dataCount
        rw [List.length_append, hcount, hts]
      by_cases hz : (t0 ++ ts).length = 0
      · rw [if_pos (Or.inr hz)]
        constructor
        · intro _
          exact Or.inr (hdc.trans hz)
        · intro _
          exact Or.inr rfl
      · have hcond : ¬ ((t0 ++ ts).length ≠ (y0 ++ ys).length ∨ (t0 ++ ts).length = 0) := by
          rintro (hA | hB)
          · exact hA hlen
          · exact hz hB
        rw [if_neg hcond]
        constructor
        · intro h
          rcases h with h | h <;> exact Except.noConfusion h
        · intro h
          rcases h with h | h
          · obtain ⟨r, hr, hb⟩ := h
            exact absurd hb (hbad r hr)
          · rw [hdc] at h
            exact absurd h hz

theorem readRows_cons_reduce (row : List (Option ℚ)) (rest : List (List (Option ℚ))) :
    readRows (row :: rest) =
      (if row.length < 2 then readRows rest
       else
         match row.getD 0 none, row.getD 1 none with
         | some a, some b =>
           (match readRows rest with
            | .ok (ts, ys) => .ok (a :: ts, b :: ys)
            | .error e => .error e)
         | _, _ => .error .parseErr) := rfl

theorem readRows_skip (pre post : List (List (Option ℚ))) (r : List (Option ℚ))
    (hr : r.length < 2) :
    readRows (pre ++ r :: post) = readRows (pre ++ post) := by
  induction pre with
  | nil =>
    show readRows (r :: post) = readRows post
    rw [readRows_cons_reduce, if_pos hr]
  | cons p pre ih =>
    show readRows (p :: (pre ++ r :: post)) = readRows (p :: (pre ++ post))
    rw [readRows_cons_reduce, readRows_cons_reduce, ih]

theorem loadCsv_skip_short_row (h : List (Option ℚ)) (pre post : List (List (Option ℚ)))
    (r : List (Option ℚ)) (hr : r.length < 2) :
    loadCsv (h :: (pre ++ r :: post)) = loadCsv (h :: (pre ++ post)) := by
  unfold loadCsv
  have hhead : headStep (h :: (pre ++ r :: post)) = headStep (h :: (pre ++ post)) := rfl
  rw [hhead]
  cases headStep (h :: (pre ++ post)) with
  | error e => rfl
  | ok p =>
    rcases p with ⟨t0, y0⟩
    show finishLoad t0 y0 (pre ++ r :: post) = finishLoad t0 y0 (pre ++ post)
    unfold finishLoad
    rw [readRows_skip pre post r hr]

theorem loadCsv_skip_bad_header (h : List (Option ℚ)) (rest : List (List (Option ℚ)))
    (h0 : h.getD 0 none = none) :
    loadCsv (h :: rest) = loadCsv ([] :: rest) := by
  have hh : headStep (h :: rest) = .ok ([], []) := by
    unfold headStep
    show (if h.isEmpty = true then _ else _) = _
    by_cases he : h.isEmpty
    · rw [if_pos he]
    · rw [if_neg he, h0]
  have hh2 : headStep (([] : List (Option ℚ)) :: rest) = .ok ([], []) := rfl
  unfold loadCsv
  rw [hh, hh2]
  rfl

theorem loadCsv_nil : loadCsv [] = .error .shapeErr := rfl

/-- Counterexample to C5 as stated: the single-row file whose only row has
one numeric field. Per the claim the row is silently skipped and the import
then fails with the FormatError for an empty result; the code instead hits
header[1] and raises IndexError. -/
theorem c5_counterexample :
    loadCsv [[some 1]] = .error .indexError ∧
    loadCsv [[some 1]] ≠ .error .shapeErr ∧
    loadCsv [[some 1]] ≠ .error .parseErr := by
  refine ⟨rfl, fun hcon => ?_, fun hcon => ?_⟩
  · exact CsvErr.noConfusion (Except.error.inj hcon)
  · exact CsvErr.noConfusion (Except.error.inj hcon)

/-- Claim C5 (amended): the importer raises IndexError exactly when the first
row has exactly one field and that field parses as a float. Outside that case
the importer fails (with the ValueError the spec calls FormatError) iff
some accepted data row fails numeric parsing or the resulting row count is
zero. Rows after the first with fewer than 2 fields are silently skipped, and
a first row whose first field does not parse (in particular an empty first
row) is consumed as a header and contributes nothing. -/
theorem c5_load_csv_characterization :
    (∀ rows, loadCsv rows = .error .indexError ↔ headerIndexError rows) ∧
    (∀ rows, ¬ headerIndexError rows →
      ((loadCsv rows = .error .parseErr ∨ loadCsv rows = .error .shapeErr) ↔
        ((∃ r ∈ rows.tail, badRow r) ∨ dataCount rows = 0))) ∧
    (∀ (h : List (Option ℚ)) pre post r, r.length < 2 →
      loadCsv (h :: (pre ++ r :: post)) = loadCsv (h :: (pre ++ post))) ∧
    (∀ (h : List (Option ℚ)) rest, h.getD 0 none = none →
      loadCsv (h :: rest) = loadCsv ([] :: rest)) ∧
    loadCsv [] = .error .shapeErr :=
  ⟨loadCsv_indexError_iff, loadCsv_formatError_iff,
    loadCsv_skip_short_row, loadCsv_skip_bad_header, loadCsv_nil⟩

/-- Witness for C5 at concrete files: a file with a non-numeric header, one
good row, one short row (skipped) and a final good row imports successfully;
a file whose rows are all short fails with the shape error; the skip clauses
at work on a concrete short row. -/
theorem c5_load_csv_characterization_witness :
    (loadCsv [[some 1]] = .error .indexError ↔ headerIndexError [[some 1]]) ∧
    ((loadCsv [[none, none], [some 9]] = .error .parseErr ∨
        loadCsv [[none, none], [some 9]] = .error .shapeErr) ∧
      loadCsv ([none, some 1] ::
          (([] : List (List (Option ℚ))) ++ [some 2] :: [[some 3, some 4]])) =
        loadCsv ([none, some 1] :: (([] : List (List (Option ℚ))) ++ [[some 3, some 4]]))) := by
  refine ⟨c5_load_csv_characterization.1 [[some 1]], ?_, ?_⟩
  · refine (c5_load_csv_characterization.2.1 [[none, none], [some 9]] ?_).mpr (Or.inr rfl)
    rintro ⟨h, hh, hlen, hs⟩
    rw [List.head?_cons] at hh
    cases hh
    simp at hlen
  · exact c5_load_csv_characterization.2.2.1 [none, some 1] [] [[some 3, some 4]] [some 2]
      (by norm_num)

/-! ## SNR sentinels (claim C6) -/

/-- Claim C6: snr_db returns the finite decibel value 20*log10(rms_sig /
rms_err) whenever both RMS values reach the tolerance 1e-15, the +infinity
sentinel whenever the error RMS is below the tolerance, and the -infinity
sentinel when the signal RMS is below the tolerance while the error RMS is
not; being a total function it never raises. -/
theorem c6_snr_db_policy (signal error : List ℝ) :
    (rmsNp error < 1e-15 → snrDb signal error = .posInf) ∧
    (¬ rmsNp error < 1e-15 → rmsNp signal < 1e-15 → snrDb signal error = .negInf) ∧
    (¬ rmsNp error < 1e-15 → ¬ rmsNp signal < 1e-15 →
      snrDb signal error = .val (20 * Real.logb 10 (rmsNp signal / rmsNp error))) := by
  refine ⟨?_, ?_, ?_⟩
  · intro h
    unfold snrDb
    rw [if_pos h]
  · intro h1 h2
    unfold snrDb
    rw [if_neg h1, if_pos h2]
  · intro h1 h2
    unfold snrDb
    rw [if_neg h1, if_neg h2]

theorem rmsNp_one : rmsNp ([1] : List ℝ) = 1 := by
  unfold rmsNp meanR
  norm_num

theorem rmsNp_zero_singleton : rmsNp ([0] : List ℝ) = 0 := by
  unfold rmsNp meanR
  norm_num

/-- Witness for C6: both sentinel-free and sentinel branches at concrete
series. -/
theorem c6_snr_db_policy_witness :
    ¬ rmsNp ([1] : List ℝ) < 1e-15 ∧
    snrDb [1] [1] = .val (20 * Real.logb 10 (rmsNp ([1] : List ℝ) / rmsNp ([1] : List ℝ))) ∧
    rmsNp ([0] : List ℝ) < 1e-15 ∧
    snrDb [1] [0] = .posInf ∧
    snrDb [0] [1] = .negInf := by
  have h1 : ¬ rmsNp ([1] : List ℝ) < 1e-15 := by
    rw [rmsNp_one]
    norm_num
  have h0 : rmsNp ([0] : List ℝ) < 1e-15 := by
    rw [rmsNp_zero_singleton]
    norm_num
  exact ⟨h1, (c6_snr_db_policy [1] [1]).2.2 h1 h1, h0,
    (c6_snr_db_policy [1] [0]).1 h0, (c6_snr_db_policy [0] [1]).2.1 h1 h0⟩

/-! ## Triangle pulse shape (claim C7) -/

/-- Claim C7: for the triangle pulse train with duty = 20 percent and apex
fraction 50 percent, writing c for the period-normalized phase fraction and A
for the amplitude in output units (ampUV converted to millivolt), the output
is A*(10*c) on the rising ramp c in [0, 1/10] (so 0 at fraction 0 and exactly
A at fraction 1/10), A*10*(1/5 - c) on the falling ramp (reaching 0 at
fraction 1/5), and exactly 0 on the remaining 80 percent of the period. -/
theorem c7_tri_pulse_shape (t freqHz ampUV phaseDeg c : ℝ)
    (hc : c = Int.fract (max 0 (min freqHz (250 / 2)) * t +
      phaseDeg * (Real.pi / 180) / (2 * Real.pi))) :
    (c ≤ 1 / 10 → triPulse 250 t freqHz ampUV phaseDeg 20 50 = ampUV * 1e-3 * (10 * c)) ∧
    (1 / 10 < c → c < 1 / 5 →
      triPulse 250 t freqHz ampUV phaseDeg 20 50 = ampUV * 1e-3 * (10 * (1 / 5 - c))) ∧
    (1 / 5 ≤ c → triPulse 250 t freqHz ampUV phaseDeg 20 50 = 0) := by
  have hduty : min (max (20 : ℝ) 0.1) 99.9 / 100 = 1 / 5 := by
    rw [max_eq_left (by norm_num), min_eq_left (by norm_num)]
    norm_num
  have hapex : min (max (50 : ℝ) 1) 99 / 100 = 1 / 2 := by
    rw [max_eq_left (by norm_num), min_eq_left (by norm_num)]
    norm_num
  unfold triPulse
  simp only []
  rw [hduty, hapex, ← hc]
  refine ⟨?_, ?_, ?_⟩
  · intro h
    have hlt : c < 1 / 5 := by linarith
    have hdiv : c / (1 / 5 : ℝ) = 5 * c := by ring
    rw [if_pos hlt, hdiv, if_pos (by linarith), if_pos (by norm_num)]
    ring
  · intro h1 h2
    have hdiv : c / (1 / 5 : ℝ) = 5 * c := by ring
    rw [if_pos h2, hdiv, if_neg (by push_neg; linarith), if_pos (by norm_num)]
    ring
  · intro h
    rw [if_neg (not_lt.mpr h)]

/-- Witness for C7 in the flat 80 percent of the period: at t = 1/40 with a
10 Hz pulse and zero phase the phase fraction is 1/4, past the active window,
so the output is exactly zero. -/
theorem c7_tri_pulse_shape_witness : triPulse 250 (1 / 40) 10 50 0 20 50 = 0 := by
  have hc : (1 / 4 : ℝ) = Int.fract (max 0 (min (10 : ℝ) (250 / 2)) * (1 / 40) +
      0 * (Real.pi / 180) / (2 * Real.pi)) := by
    rw [min_eq_left (by norm_num), max_eq_right (by norm_num)]
    rw [zero_mul, zero_div, add_zero]
    rw [show (10 : ℝ) * (1 / 40) = 1 / 4 by norm_num]
    rw [Int.fract_eq_self.mpr ⟨by norm_num, by norm_num⟩]
  exact (c7_tri_pulse_shape (1 / 40) 10 50 0 (1 / 4) hc).2.2 (by norm_num)

/-! ## Pearson correlation lemmas (claims C4 and C8) -/

theorem sum_map_sub_const (xs : List ℝ) (c : ℝ) :
    (xs.map (fun v => v - c)).sum = xs.sum - xs.length * c := by
  induction xs with
  | nil => simp
  | cons a l ih =>
    simp [ih]
    ring

theorem meanR_centeredR (xs : List ℝ) : meanR (centeredR xs) = 0 := by
  unfold centeredR meanR
  rw [List.length_map, sum_map_sub_const]
  rcases Nat.eq_zero_or_pos xs.length with h | h
  · rw [h]
    simp
  · have hne : (xs.length : ℝ) ≠ 0 := by positivity
    field_simp

theorem centeredR_idem (xs : List ℝ) : centeredR (centeredR xs) = centeredR xs := by
  show (centeredR xs).map (fun v => v - meanR (centeredR xs)) = centeredR xs
  rw [meanR_centeredR]
  simp

theorem stdNp_centeredR (xs : List ℝ) : stdNp (centeredR xs) = stdNp xs := by
  unfold stdNp
  rw [centeredR_idem]

theorem sum_sq_nonneg (l : List ℝ) : 0 ≤ (l.map (fun v => v ^ 2)).sum := by
  apply List.sum_nonneg
  intro x hx
  obtain ⟨v, _, rfl⟩ := List.mem_map.mp hx
  positivity

/-- A standard deviation at least the degeneracy threshold forces a positive
sum of squared deviations. -/
theorem sum_sq_pos_of_std_large (xs : List ℝ) (eps : ℝ) (heps : 0 < eps)
    (h : ¬ stdNp xs < eps) : 0 < ((centeredR xs).map (fun v => v ^ 2)).sum := by
  rcases lt_or_eq_of_le (sum_sq_nonneg (centeredR xs)) with hpos | hzero
  · exact hpos
  · exfalso
    apply h
    unfold stdNp meanR
    rw [← hzero, zero_div, Real.sqrt_zero]
    exact heps

theorem sum_zipWith_mul_self (l : List ℝ) :
    (List.zipWith (fun p q => p * q) l l).sum = (l.map (fun v => v ^ 2)).sum := by
  induction l with
  | nil => rfl
  | cons a r ih =>
    rw [List.zipWith_cons_cons, List.sum_cons, List.map_cons, List.sum_cons, ih]
    ring_nf

theorem sum_zipWith_mul_neg (l : List ℝ) :
    (List.zipWith (fun p q => p * q) l (l.map (fun v => -v))).sum =
      -(l.map (fun v => v ^ 2)).sum := by
  induction l with
  | nil => simp
  | cons a r ih =>
    rw [List.map_cons, List.zipWith_cons_cons, List.sum_cons, ih, List.map_cons,
      List.sum_cons]
    ring

theorem sum_map_neg (xs : List ℝ) : (xs.map (fun v => -v)).sum = -xs.sum := by
  induction xs with
  | nil => simp
  | cons a r ih =>
    rw [List.map_cons, List.sum_cons, ih, List.sum_cons]
    ring

theorem meanR_map_neg (xs : List ℝ) : meanR (xs.map (fun v => -v)) = -meanR xs := by
  unfold meanR
  rw [List.length_map, sum_map_neg, neg_div]

theorem centeredR_map_neg (xs : List ℝ) :
    centeredR (xs.map (fun v => -v)) = (centeredR xs).map (fun v => -v) := by
  unfold centeredR
  rw [meanR_map_neg, List.map_map, List.map_map]
  apply List.map_congr_left
  intro a _
  show -a - -meanR xs = -(a - meanR xs)
  ring

theorem sum_sq_map_neg (l : List ℝ) :
    ((l.map (fun v => -v)).map (fun v => v ^ 2)).sum = (l.map (fun v => v ^ 2)).sum := by
  rw [List.map_map]
  apply congrArg
  apply List.map_congr_left
  intro a _
  show (-a) ^ 2 = a ^ 2
  ring

theorem meanR_sq_map_neg (l : List ℝ) :
    meanR ((l.map (fun v => -v)).map (fun v => v ^ 2)) = meanR (l.map (fun v => v ^ 2)) := by
  unfold meanR
  rw [sum_sq_map_neg, List.length_map, List.length_map, List.length_map]

theorem stdNp_map_neg (xs : List ℝ) : stdNp (xs.map (fun v => -v)) = stdNp xs := by
  unfold stdNp
  rw [centeredR_map_neg, meanR_sq_map_neg]

theorem corrcoef01_self (x : List ℝ)
    (h : 0 < ((centeredR x).map (fun v => v ^ 2)).sum) : corrcoef01 x x = 1 := by
  unfold corrcoef01
  rw [sum_zipWith_mul_self, Real.mul_self_sqrt (le_of_lt h), div_self (ne_of_gt h)]

theorem corrcoef01_neg (x : List ℝ)
    (h : 0 < ((centeredR x).map (fun v => v ^ 2)).sum) :
    corrcoef01 x (x.map (fun v => -v)) = -1 := by
  unfold corrcoef01
  rw [centeredR_map_neg, sum_zipWith_mul_neg, sum_sq_map_neg,
    Real.mul_self_sqrt (le_of_lt h), neg_div, div_self (ne_of_gt h)]

theorem corrcoef01_centered (a b : List ℝ) :
    corrcoef01 (centeredR a) (centeredR b) = corrcoef01 a b := by
  unfold corrcoef01
  rw [centeredR_idem, centeredR_idem]

theorem stdNp_replicate (n : ℕ) (c : ℝ) : stdNp (List.replicate n c) = 0 := by
  unfold stdNp
  cases n with
  | zero =>
    unfold centeredR meanR
    simp
  | succ m =>
    have hmean : meanR (List.replicate (m + 1) c) = c := by
      unfold meanR
      rw [List.sum_replicate, List.length_replicate, nsmul_eq_mul]
      field_simp
    unfold centeredR
    rw [hmean, List.map_replicate, List.map_replicate]
    unfold meanR
    rw [List.sum_replicate]
    norm_num

theorem stdNp_pair_small : stdNp ([0, 2e-13] : List ℝ) = 1e-13 := by
  unfold stdNp centeredR meanR
  norm_num
  rw [show (100000000000000000000000000 : ℝ) = 10000000000000 ^ 2 by norm_num,
    Real.sqrt_sq (by norm_num)]
  norm_num

theorem stdNp_pair_01 : stdNp ([0, 1] : List ℝ) = 1 / 2 := by
  unfold stdNp centeredR meanR
  norm_num
  rw [show (4 : ℝ) = 2 ^ 2 by norm_num, Real.sqrt_sq (by norm_num)]
  norm_num

/-! ## Claim C4 -/

/-- Counterexample to C4 as stated: the extended painter
(make_sample_signal2.py) uses the degeneracy threshold 1e-15, not 1e-12. The
series [0, 2e-13] has standard deviation 1e-13, below 1e-12 but not below
1e-15, so per the claim the computation should report the NaN sentinel, while
the painter computes a correlation value. -/
theorem c4_counterexample :
    stdNp ([0, 2e-13] : List ℝ) < 1e-12 ∧
    pearsonPainter2 [0, 2e-13] [0, 1] ≠ none := by
  constructor
  · rw [stdNp_pair_small]
    norm_num
  · unfold pearsonPainter2
    rw [if_neg]
    · exact Option.noConfusion
    · rintro (h | h)
      · rw [stdNp_pair_small] at h
        norm_num at h
      · rw [stdNp_pair_01] at h
        norm_num at h

/-- Claim C4 (amended): each Pearson computation is total and returns the NaN
sentinel exactly when either input series has standard deviation below its
degeneracy threshold — 1e-12 in the two study modules but 1e-15 in the
extended painter — and otherwise returns np.corrcoef of the series, which
equals the correlation of the mean-centered series (the optional detrend
pass of the linear study does not change the result). -/
theorem c4_pearson_degeneracy_policy :
    (∀ (d : Bool) (a b : List ℝ),
      pearsonLinearStudy d a b = none ↔ (stdNp a < 1e-12 ∨ stdNp b < 1e-12)) ∧
    (∀ a b : List ℝ, pearsonLinearStudy true a b = pearsonLinearStudy false a b) ∧
    (∀ a b : List ℝ,
      pearsonTriStudy a b = none ↔ (stdNp a < 1e-12 ∨ stdNp b < 1e-12)) ∧
    (∀ a b : List ℝ,
      pearsonTriStudy a b = (if stdNp a < 1e-12 ∨ stdNp b < 1e-12 then none
        else some (corrcoef01 a b))) ∧
    (∀ a b : List ℝ,
      pearsonPainter2 a b = none ↔ (stdNp a < 1e-15 ∨ stdNp b < 1e-15)) := by
  have hlin : ∀ (d : Bool) (a b : List ℝ),
      pearsonLinearStudy d a b =
        (if stdNp a < 1e-12 ∨ stdNp b < 1e-12 then none else some (corrcoef01 a b)) := by
    intro d a b
    cases d with
    | false => rfl
    | true =>
      unfold pearsonLinearStudy
      simp only [if_true]
      rw [stdNp_centeredR, stdNp_centeredR, corrcoef01_centered]
  have hiff : ∀ (o : Option ℝ) (p : Prop) [Decidable p] (v : ℝ),
      (if p then (none : Option ℝ) else some v) = none ↔ p := by
    intro o p hp v
    split
    · rename_i h
      exact ⟨fun _ => h, fun _ => rfl⟩
    · rename_i h
      exact ⟨fun hcon => Option.noConfusion hcon, fun hcon => absurd hcon h⟩
  refine ⟨?_, ?_, ?_, ?_, ?_⟩
  · intro d a b
    rw [hlin d a b]
    exact hiff none _ (corrcoef01 a b)
  · intro a b
    rw [hlin true a b, hlin false a b]
  · intro a b
    unfold pearsonTriStudy
    rw [corrcoef01_centered]
    exact hiff none _ (corrcoef01 a b)
  · intro a b
    unfold pearsonTriStudy
    rw [corrcoef01_centered]
  · intro a b
    unfold pearsonPainter2
    exact hiff none _ (corrcoef01 a b)

/-! ## Claim C8 -/

/-- Claim C8: with the study threshold 1e-12, pearson of a non-constant
series with itself is exactly 1, with its pointwise negation exactly -1, and
pearson of a constant series with anything is the NaN sentinel (shown for
both values of the detrend flag of the linear study). -/
theorem c8_pearson_identities :
    (∀ (d : Bool) (x : List ℝ), ¬ stdNp x < 1e-12 →
      pearsonLinearStudy d x x = some 1) ∧
    (∀ (d : Bool) (x : List ℝ), ¬ stdNp x < 1e-12 →
      pearsonLinearStudy d x (x.map (fun v => -v)) = some (-1)) ∧
    (∀ (d : Bool) (c : ℝ) (n : ℕ) (b : List ℝ),
      pearsonLinearStudy d (List.replicate n c) b = none) := by
  have hlin : ∀ (d : Bool) (a b : List ℝ),
      pearsonLinearStudy d a b =
        (if stdNp a < 1e-12 ∨ stdNp b < 1e-12 then none else some (corrcoef01 a b)) := by
    intro d a b
    cases d with
    | false => rfl
    | true =>
      unfold pearsonLinearStudy
      simp only [if_true]
      rw [stdNp_centeredR, stdNp_centeredR, corrcoef01_centered]
  refine ⟨?_, ?_, ?_⟩
  · intro d x hx
    rw [hlin d x x, if_neg (by rintro (h | h) <;> exact hx h)]
    rw [corrcoef01_self x (sum_sq_pos_of_std_large x 1e-12 (by norm_num) hx)]
  · intro d x hx
    have hxn : ¬ stdNp (x.map (fun v => -v)) < 1e-12 := by
      rw [stdNp_map_neg]
      exact hx
    rw [hlin d x (x.map (fun v => -v)), if_neg (by rintro (h | h); exacts [hx h, hxn h])]
    rw [corrcoef01_neg x (sum_sq_pos_of_std_large x 1e-12 (by norm_num) hx)]
  · intro d c n b
    rw [hlin d (List.replicate n c) b,
      if_pos (Or.inl (by rw [stdNp_replicate]; norm_num))]

/-- Witness for C8 at the concrete non-constant series [0, 1]. -/
theorem c8_pearson_identities_witness :
    ¬ stdNp ([0, 1] : List ℝ) < 1e-12 ∧
    pearsonLinearStudy false [0, 1] [0, 1] = some 1 ∧
    pearsonLinearStudy false [0, 1] (([0, 1] : List ℝ).map (fun v => -v)) = some (-1) := by
  have hstd : ¬ stdNp ([0, 1] : List ℝ) < 1e-12 := by
    rw [stdNp_pair_01]
    norm_num
  exact ⟨hstd, (c8_pearson_identities).1 false [0, 1] hstd,
    (c8_pearson_identities).2.1 false [0, 1] hstd⟩

end SigmaSST
